import Mathlib

/-!
Verification of the data normalization, aggregation and quality-check engine
of the retail dashboard (src/genai_dashboard_app.py).

The embedding has two layers.

Generic layer: a `Table` is a list of column names (character lists, since the
normalizer manipulates raw header text) together with rows of tagged `Cell`
values.  The schema normalizer (column-name stripping plus the per-column date
and numeric coercions of load_data, lines 24-42) and the operations whose
behavior depends on column presence (total_sales line 69, the monthly-trend
block lines 83-87, quality check 3 lines 147-148) are embedded here; a pandas
KeyError raised by indexing a missing column is modelled as Except.error.

Typed layer: operations that the script runs on the three normalized tables
(monthly trend, top-N rankings, low-stock filter, quality checks) are embedded
over record types carrying the columns those operations index, with
pd.NaT-able dates as Option values.  pandas sort_values is embedded as a
deterministic comparison sort; groupby(sort=True) sorts its keys ascending.
-/

/-- Column names and string cells are lists of characters, mirroring the raw
header text that load_data strips. -/
abbrev Str := List Char

/-- Whitespace recognized by str.strip on the header names (ASCII whitespace;
the hand-authored CSV headers in scope carry only these). -/
def wsChar (c : Char) : Bool :=
  c = ' ' ∨ c = '\t' ∨ c = '\n' ∨ c = '\r' ∨ c = '\x0b' ∨ c = '\x0c'

/-- Python str.strip: drop leading and trailing whitespace, embedded on
character lists (load_data line 24-26 applies it to every column name). -/
def stripStr (l : Str) : Str :=
  ((l.dropWhile wsChar).reverse.dropWhile wsChar).reverse

/-- Calendar timestamp at day granularity.  Time of day is irrelevant to every
operation in scope: the only consumer of dates is the monthly trend, which
truncates to the calendar month. -/
structure Date where
  y : ℤ
  m : ℤ
  d : ℤ
deriving DecidableEq, Repr

/-- Dates are ordered lexicographically by year, month, day, matching the
chronological order of pandas timestamps at day granularity. -/
def Date.toLexTriple (a : Date) : Lex (ℤ × Lex (ℤ × ℤ)) :=
  toLex (a.y, toLex (a.m, a.d))

instance : LinearOrder Date :=
  LinearOrder.lift' Date.toLexTriple (by
    intro a b h
    cases a; cases b
    simp only [Date.toLexTriple] at h
    have h' := congrArg (fun x => ofLex x) h
    simp only [ofLex_toLex, Prod.mk.injEq] at h'
    obtain ⟨h1, h2⟩ := h'
    have h2' := congrArg (fun x => ofLex x) h2
    simp only [ofLex_toLex, Prod.mk.injEq] at h2'
    simp [h1, h2'.1, h2'.2])

/-- One tabular cell.  Raw cells read from a CSV are strings or numbers; the
normalizer additionally produces parsed timestamps (date), the pandas missing
markers NaN (failed numeric parse) and NaT (failed date parse). -/
inductive Cell where
  | str (s : Str)
  | num (q : ℚ)
  | nan
  | date (d : Date)
  | nat
deriving DecidableEq, Repr

/-- Decimal digit value of a character, if any. -/
def digitVal (c : Char) : Option ℕ :=
  if '0' ≤ c ∧ c ≤ '9' then some (c.toNat - '0'.toNat) else none

/-- Parse a nonempty all-digit run to a natural number. -/
def parseDigits (l : Str) : Option ℕ :=
  if l.isEmpty then none
  else l.foldl (fun acc c => acc.bind fun n => (digitVal c).map fun d => 10 * n + d) (some 0)

/-- Parse an unsigned decimal literal, with an optional fractional part. -/
def parseUnsigned (l : Str) : Option ℚ :=
  let ip := l.takeWhile (fun c => c ≠ '.')
  match l.dropWhile (fun c => c ≠ '.') with
  | [] => (parseDigits ip).map fun n => (n : ℚ)
  | _ :: frac =>
      if frac.any (fun c => c = '.') then none
      else (parseDigits ip).bind fun n =>
        (parseDigits frac).map fun f => (n : ℚ) + (f : ℚ) / (10 : ℚ) ^ frac.length

/-- Numeric parse of a string cell.  Models the decimal literals accepted by
pd.to_numeric (optional sign, digits, optional fraction); exotic spellings
such as exponents are out of scope of the claims. -/
def parseNumStr (l : Str) : Option ℚ :=
  match l with
  | '-' :: rest => (parseUnsigned rest).map fun q => -q
  | '+' :: rest => parseUnsigned rest
  | _ => parseUnsigned l

/-- Cell-level numeric parse underlying pd.to_numeric(errors="coerce"): a
number parses to itself, a string through the decimal grammar, and the missing
markers fail (NaN stays NaN before fillna). -/
def parseNum (c : Cell) : Option ℚ :=
  match c with
  | .num q => some q
  | .str s => parseNumStr s
  | _ => none

/-- pd.to_numeric(errors="coerce").fillna(0) on one cell: the parse result, or
0 when the parse fails (load_data lines 35-42). -/
def numCoerce (c : Cell) : Cell :=
  .num ((parseNum c).getD 0)

/-- Parse an ISO YYYY-MM-DD string to a date with calendar-range validation.
Models the pd.to_datetime string parser on the date format in scope. -/
def parseDateStr (l : Str) : Option Date :=
  let yPart := l.takeWhile (fun c => c ≠ '-')
  match l.dropWhile (fun c => c ≠ '-') with
  | [] => none
  | _ :: rest =>
      let mPart := rest.takeWhile (fun c => c ≠ '-')
      match rest.dropWhile (fun c => c ≠ '-') with
      | [] => none
      | _ :: dPart =>
          (parseDigits yPart).bind fun y =>
            (parseDigits mPart).bind fun m =>
              (parseDigits dPart).bind fun d =>
                if 1 ≤ m ∧ m ≤ 12 ∧ 1 ≤ d ∧ d ≤ 31 then
                  some ⟨(y : ℤ), (m : ℤ), (d : ℤ)⟩
                else none

/-- Civil date from a count of days since 1970-01-01 (Gregorian calendar
algorithm).  Int.tdiv is truncating division, matching the reference
formulation of the algorithm. -/
def civilFromDays (z0 : ℤ) : Date :=
  let z := z0 + 719468
  let era := Int.tdiv (if 0 ≤ z then z else z - 146096) 146097
  let doe := z - era * 146097
  let yoe := Int.tdiv (doe - Int.tdiv doe 1460 + Int.tdiv doe 36524 - Int.tdiv doe 146096) 365
  let y := yoe + era * 400
  let doy := doe - (365 * yoe + Int.tdiv yoe 4 - Int.tdiv yoe 100)
  let mp := Int.tdiv (5 * doy + 2) 153
  let d := doy - Int.tdiv (153 * mp + 2) 5 + 1
  let m := mp + (if mp < 10 then 3 else -9)
  ⟨y + (if m ≤ 2 then 1 else 0), m, d⟩

/-- pd.to_datetime on a raw number, which pandas reads as an epoch offset in
nanoseconds: the calendar day containing that instant. -/
def epochDate (q : ℚ) : Date :=
  civilFromDays ⌊q / ((86400 : ℚ) * 1000000000)⌋

/-- pd.to_datetime(errors="coerce") on one cell: timestamps pass through,
strings are parsed (unparseable becomes NaT), numbers are epoch offsets, and
both missing markers become NaT (load_data lines 29-32). -/
def dateCoerce (c : Cell) : Cell :=
  match c with
  | .date d => .date d
  | .str s =>
      match parseDateStr s with
      | some d => .date d
      | none => .nat
  | .num q => .date (epochDate q)
  | .nan => .nat
  | .nat => .nat

/-- A table: named columns over rows of cells, the shape of a DataFrame. -/
structure Table where
  cols : List Str
  rows : List (List Cell)
deriving DecidableEq, Repr

def colSaleDate : Str := "sale_date".data
def colJoinDate : Str := "join_date".data
def colTotalAmount : Str := "total_amount".data
def colQuantity : Str := "quantity".data
def colPricePerUnit : Str := "price_per_unit".data
def colQtyInStock : Str := "quantity_in_stock".data
def colSaleId : Str := "sale_id".data
def colCustomerId : Str := "customer_id".data

/-- Per-cell coercion of the sales table, keyed by the (already stripped)
column name: sale_date through the date coercion, total_amount and quantity
through the numeric coercion, every other column untouched. -/
def coerceSalesCell (n : Str) (c : Cell) : Cell :=
  if n = colSaleDate then dateCoerce c
  else if n = colTotalAmount ∨ n = colQuantity then numCoerce c
  else c

/-- Per-cell coercion of the customers table: join_date only. -/
def coerceCustCell (n : Str) (c : Cell) : Cell :=
  if n = colJoinDate then dateCoerce c else c

/-- Per-cell coercion of the inventory table: price_per_unit and
quantity_in_stock. -/
def coerceInvCell (n : Str) (c : Cell) : Cell :=
  if n = colPricePerUnit ∨ n = colQtyInStock then numCoerce c else c

/-- Apply a name-indexed cell coercion across one row. -/
def coerceRow (f : Str → Cell → Cell) (cols : List Str) (r : List Cell) : List Cell :=
  (cols.zip r).map fun p => f p.1 p.2

/-- The single normalization pass of load_data on one table: strip every
column name, then coerce the named columns that are present (a column is
coerced exactly when its stripped name matches; absent names coerce
nothing). -/
def normTable (f : Str → Cell → Cell) (t : Table) : Table :=
  let cols := t.cols.map stripStr
  ⟨cols, t.rows.map (coerceRow f cols)⟩

def normalizeCustomers : Table → Table := normTable coerceCustCell
def normalizeInventory : Table → Table := normTable coerceInvCell
def normalizeSales : Table → Table := normTable coerceSalesCell

/-- Position of a named column, none when the DataFrame lacks it. -/
def Table.colIdx (t : Table) (n : Str) : Option ℕ :=
  List.indexOf? n t.cols

/-- Numeric view of a normalized cell (the coerced numeric columns hold only
num cells). -/
def cellQ (c : Cell) : ℚ :=
  match c with
  | .num q => q
  | _ => 0

/-- Present timestamp carried by a cell, none on NaT and non-dates;
dropna(subset=[c]) keeps exactly the rows where this is some. -/
def cellDate (c : Cell) : Option Date :=
  match c with
  | .date d => some d
  | _ => none

def errSaleDate : Str := "KeyError: sale_date".data
def errTotalAmount : Str := "KeyError: total_amount".data
def errSaleId : Str := "KeyError: sale_id".data

/-- KPI of line 69: sales["total_amount"].sum() if not sales.empty else 0.
The empty guard fires before the column is indexed, so only a non-empty table
lacking the column raises. -/
def totalSalesT (t : Table) : Except Str ℚ :=
  if t.rows.isEmpty then .ok 0
  else
    match t.colIdx colTotalAmount with
    | some j => .ok ((t.rows.map fun r => cellQ (r.getD j .nan)).sum)
    | none => .error errTotalAmount

/-- Quality check 3 (lines 147-148):
sales[sales["total_amount"] < 0][["sale_id","total_amount"]].  The boolean
filter indexes total_amount first; the column selection then indexes sale_id.
Either column missing raises a KeyError — there is no emptiness guard. -/
def negCheckT (t : Table) : Except Str (List (Cell × Cell)) :=
  match t.colIdx colTotalAmount with
  | none => .error errTotalAmount
  | some j =>
      let kept := t.rows.filter fun r => decide (cellQ (r.getD j .nan) < 0)
      match t.colIdx colSaleId with
      | none => .error errSaleId
      | some i => .ok (kept.map fun r => (r.getD i .nan, r.getD j .nan))

/-- Normalized sale record: the columns the aggregation engine and quality
checks index on the sales table.  sale_date is an Option since the date
coercion leaves NaT for unparseable dates. -/
structure SaleRow where
  sale_id : ℤ
  customer_id : ℤ
  product_id : ℤ
  sale_date : Option Date
  total_amount : ℚ
  quantity : ℚ
deriving DecidableEq, Repr

/-- Normalized customer record: the columns the engine indexes. -/
structure CustRow where
  customer_id : ℤ
  customer_name : Str
deriving DecidableEq, Repr

/-- Normalized inventory record: the columns the engine indexes. -/
structure InvRow where
  product_id : ℤ
  product_name : Str
  price_per_unit : ℚ
  quantity_in_stock : ℚ
deriving DecidableEq, Repr

/-- dt.to_period('M').dt.to_timestamp (line 86): truncate a timestamp to the
first instant of its calendar month. -/
def truncMonth (d : Date) : Date :=
  ⟨d.y, d.m, 1⟩

/-- groupby(k)[v].sum().reset_index() with the pandas default sort=True: the
distinct keys in ascending order, each paired with the sum of the value column
over its group. -/
def groupbySum {α κ : Type} [LinearOrder κ] [DecidableEq κ] (key : α → κ) (amt : α → ℚ)
    (l : List α) : List (κ × ℚ) :=
  (List.insertionSort (· ≤ ·) (l.map key).dedup).map fun k =>
    (k, ((l.filter fun s => key s = k).map amt).sum)

/-- Month buckets of a list of (already truncated) date and amount pairs. -/
def bucketSum (pairs : List (Date × ℚ)) : List (Date × ℚ) :=
  groupbySum Prod.fst Prod.snd pairs

/-- Monthly trend (lines 84-87): drop rows with a missing sale_date, truncate
each date to its month, and sum total_amount per month bucket. -/
def monthly (sales : List SaleRow) : List (Date × ℚ) :=
  bucketSum (sales.filterMap fun s => s.sale_date.map fun d => (truncMonth d, s.total_amount))

/-- rolling(3, min_periods=1).mean() (line 92): at position i, the mean of the
window of the last up-to-3 values ending at i. -/
def ma3 (l : List ℚ) : List ℚ :=
  (List.range l.length).map fun i =>
    ((l.take (i + 1)).drop (i - 2)).sum / (((l.take (i + 1)).drop (i - 2)).length : ℚ)

/-- Monthly trend on the generic sales table (lines 83-87).  The block runs
only when sales is non-empty (an empty table leaves the trend output empty);
dropna(subset=["sale_date"]) then raises a KeyError when the column is
absent, and the groupby indexes total_amount. -/
def monthlyT (t : Table) : Except Str (List (Date × ℚ)) :=
  if t.rows.isEmpty then .ok []
  else
  match t.colIdx colSaleDate with
  | none => .error errSaleDate
  | some i =>
      let kept := t.rows.filter fun r => (cellDate (r.getD i .nan)).isSome
      match t.colIdx colTotalAmount with
      | none => .error errTotalAmount
      | some j =>
          .ok (bucketSum (kept.filterMap fun r =>
            (cellDate (r.getD i .nan)).map fun d => (truncMonth d, cellQ (r.getD j .nan))))

/-- Descending order on summed revenue, the key of
sort_values("total_amount", ascending=False) on the merged frame. -/
def revDesc {δ : Type} (a b : ℤ × ℚ × Option δ) : Prop :=
  b.2.1 ≤ a.2.1

instance {δ : Type} : DecidableRel (@revDesc δ) :=
  fun a b => inferInstanceAs (Decidable (b.2.1 ≤ a.2.1))

instance {δ : Type} : IsTotal (ℤ × ℚ × Option δ) revDesc :=
  ⟨fun a b => le_total b.2.1 a.2.1⟩

instance {δ : Type} : IsTrans (ℤ × ℚ × Option δ) revDesc :=
  ⟨fun _ _ _ h1 h2 => le_trans h2 h1⟩

/-- merge(dim, on=key, how="left") of the grouped revenue onto a dimension
table: every left row is kept in order; a row with no match on the right keeps
null dimension attributes, a row with matches is repeated once per match. -/
def leftMerge {δ : Type} (dimKey : δ → ℤ) (g : List (ℤ × ℚ)) (dim : List δ) :
    List (ℤ × ℚ × Option δ) :=
  g.flatMap fun kv =>
    let ms := dim.filter fun d0 => dimKey d0 = kv.1
    if ms.isEmpty then [(kv.1, kv.2, none)] else ms.map fun d0 => (kv.1, kv.2, some d0)

/-- sort_values("total_amount", ascending=False).head(10) on the merged frame.
The comparison sort is a deterministic stand-in for the pandas default
quicksort; every revenue-ordering fact proved below is independent of how the
sort breaks revenue ties. -/
def topTen {δ : Type} (l : List (ℤ × ℚ × Option δ)) : List (ℤ × ℚ × Option δ) :=
  (List.insertionSort revDesc l).take 10

/-- Top customers by revenue (lines 103-105). -/
def top_cust (sales : List SaleRow) (customers : List CustRow) :
    List (ℤ × ℚ × Option CustRow) :=
  topTen (leftMerge (fun c => c.customer_id)
    (groupbySum (fun s => s.customer_id) (fun s => s.total_amount) sales) customers)

/-- Top products by revenue (lines 114-116). -/
def top_prod (sales : List SaleRow) (inventory : List InvRow) :
    List (ℤ × ℚ × Option InvRow) :=
  topTen (leftMerge (fun p => p.product_id)
    (groupbySum (fun s => s.product_id) (fun s => s.total_amount) sales) inventory)

/-- Ascending order on quantity_in_stock, the key of
sort_values("quantity_in_stock") on the filtered inventory. -/
def qtyAsc (a b : InvRow) : Prop :=
  a.quantity_in_stock ≤ b.quantity_in_stock

instance : DecidableRel qtyAsc :=
  fun a b => inferInstanceAs (Decidable (a.quantity_in_stock ≤ b.quantity_in_stock))

instance : IsTotal InvRow qtyAsc :=
  ⟨fun a b => le_total a.quantity_in_stock b.quantity_in_stock⟩

instance : IsTrans InvRow qtyAsc :=
  ⟨fun _ _ _ h1 h2 => le_trans h1 h2⟩

/-- inventory[inventory["quantity_in_stock"] < t].sort_values(
"quantity_in_stock") with the threshold abstracted; line 125 hardcodes the
threshold to 100. -/
def lowStockWith (t : ℚ) (inv : List InvRow) : List InvRow :=
  List.insertionSort qtyAsc (inv.filter fun r => r.quantity_in_stock < t)

/-- Low-stock filter of line 125, threshold 100. -/
def low_stock (inv : List InvRow) : List InvRow :=
  lowStockWith 100 inv

/-- Quality check 2 (lines 141-145): requires both tables non-empty, else the
insufficient-data branch (none); otherwise the (sale_id, customer_id) pairs of
the sales rows whose customer_id is not in customers["customer_id"], via the
negated isin mask, in sales order. -/
def orphanCheck (sales : List SaleRow) (customers : List CustRow) :
    Option (List (ℤ × ℤ)) :=
  if sales.isEmpty ∨ customers.isEmpty then none
  else some ((sales.filter fun s =>
      ¬ (customers.any fun c => c.customer_id == s.customer_id)).map
    fun s => (s.sale_id, s.customer_id))

/-- Quality check 3 on the typed sales table (line 148): rows with negative
total_amount, projected to (sale_id, total_amount), in sales order.  The
generic negCheckT above refines this with the column-presence behavior. -/
def negCheck (sales : List SaleRow) : List (ℤ × ℚ) :=
  (sales.filter fun s => s.total_amount < 0).map fun s => (s.sale_id, s.total_amount)

/-- Sales table holding exactly the two columns quality check 3 reads, with
numeric cells: the shape of a normalized sales table for that check. -/
def mkSalesTable (l : List (ℚ × ℚ)) : Table :=
  ⟨[colSaleId, colTotalAmount], l.map fun p => [Cell.num p.1, Cell.num p.2]⟩

/-- pd.DataFrame(): the zero-column, zero-row placeholder that load_data
produces when a source file is absent (lines 19-21). -/
def emptyTable : Table :=
  ⟨[], []⟩

/-- A normalized, non-empty sales table that lacks the sale_date column. -/
def salesNoDateTable : Table :=
  ⟨[colSaleId, colTotalAmount], [[Cell.num 1, Cell.num 10]]⟩

/-- Inventory row with a negative (parseable) stock count. -/
def rowNegStock : InvRow :=
  ⟨1, "widget".data, 1, -5⟩

/-- Inventory row whose raw stock cell fails numeric parsing and is therefore
coerced to 0 by normalization. -/
def rowCoercedStock : InvRow :=
  ⟨2, "gadget".data, 1, (parseNum (Cell.str ("abc".data))).getD 0⟩

/-- Sample sales rows for concrete instantiations. -/
def salesW : List SaleRow :=
  [⟨1, 7, 4, some ⟨2024, 1, 5⟩, 30, 1⟩,
   ⟨2, 7, 4, none, 20, 2⟩,
   ⟨3, 8, 5, some ⟨2024, 2, 9⟩, 10, 1⟩]

/-- Sample customers for concrete instantiations. -/
def custW : List CustRow :=
  [⟨7, "ann".data⟩]

/-- Sample inventory for concrete instantiations. -/
def invW : List InvRow :=
  [⟨4, "pen".data, 2, 5⟩]

/-- Inventory with stock quantities 50, 150, 99, 100. -/
def invExample : List InvRow :=
  [⟨1, "p1".data, 0, 50⟩, ⟨2, "p2".data, 0, 150⟩,
   ⟨3, "p3".data, 0, 99⟩, ⟨4, "p4".data, 0, 100⟩]

/-- Raw sales table whose total_amount column holds the string cells
"10", "abc" and "-5". -/
def amountsTable : Table :=
  ⟨[colSaleId, colTotalAmount],
   [[Cell.num 1, Cell.str ("10".data)],
    [Cell.num 2, Cell.str ("abc".data)],
    [Cell.num 3, Cell.str ("-5".data)]]⟩

/-- Sales table with a single sale referencing customer 3. -/
def salesO : List SaleRow :=
  [⟨9, 3, 1, none, 5, 1⟩]

/-- Customer table holding customer ids 1 and 2. -/
def custO : List CustRow :=
  [⟨1, "a".data⟩, ⟨2, "b".data⟩]

/-- Contract of one Top-N operation, following the spec: sales are grouped by
the key (a key is grouped exactly when some sale carries it), each group
carries the sum of its total_amount; a grouped key matching no dimension row
survives the left join with a null attribute; the output is sorted descending
by summed revenue and is the first 10 of that descending order, every entry
left out having revenue at most that of every returned entry. -/
def TopNContract {δ : Type} (key : SaleRow → ℤ) (dimKey : δ → ℤ)
    (sales : List SaleRow) (dim : List δ) (out : List (ℤ × ℚ × Option δ)) : Prop :=
  let g := groupbySum key (fun s => s.total_amount) sales
  let j := leftMerge dimKey g dim
  (∀ k : ℤ, (∃ v, (k, v) ∈ g) ↔ ∃ s ∈ sales, key s = k) ∧
  (∀ k v, (k, v) ∈ g →
    v = ((sales.filter fun s => key s = k).map fun s => s.total_amount).sum) ∧
  (∀ k v, (k, v) ∈ g → (∀ d0 ∈ dim, dimKey d0 ≠ k) → (k, v, (none : Option δ)) ∈ j) ∧
  out.Pairwise (fun a b => b.2.1 ≤ a.2.1) ∧
  out.length = min 10 j.length ∧
  (∀ x ∈ out, x ∈ j) ∧
  ∃ rest, List.insertionSort revDesc j = out ++ rest ∧
    ∀ b ∈ rest, ∀ a ∈ out, b.2.1 ≤ a.2.1

theorem dropWhile_getLast? {α : Type} (p : α → Bool) (l : List α)
    (h : l.dropWhile p ≠ []) : (l.dropWhile p).getLast? = l.getLast? := by
  induction l with
  | nil => simp at h
  | cons a l ih =>
    by_cases hp : p a
    · rw [List.dropWhile_cons, if_pos hp] at h ⊢
      rw [ih h]
      have hl : l ≠ [] := by
        intro he
        subst he
        simp [List.dropWhile] at h
      cases l with
      | nil => exact absurd rfl hl
      | cons b l2 => rw [List.getLast?_cons_cons]
    · rw [List.dropWhile_cons, if_neg hp]

theorem head_dropWhile_not {α : Type} (p : α → Bool) (l : List α) {x : α}
    (h : (l.dropWhile p).head? = some x) : p x = false := by
  induction l with
  | nil => simp [List.dropWhile] at h
  | cons a l ih =>
    by_cases hp : p a
    · rw [List.dropWhile_cons, if_pos hp] at h
      exact ih h
    · rw [List.dropWhile_cons, if_neg hp] at h
      simp only [List.head?_cons, Option.some.injEq] at h
      subst h
      exact Bool.eq_false_iff.mpr hp

theorem dropWhile_eq_self_of_head {α : Type} (p : α → Bool) (l : List α)
    (h : ∀ x, l.head? = some x → p x = false) : l.dropWhile p = l := by
  cases l with
  | nil => rfl
  | cons a l =>
    rw [List.dropWhile_cons, if_neg]
    simp [h a rfl]

/-- Python str.strip is idempotent. -/
theorem stripStr_idem (l : Str) : stripStr (stripStr l) = stripStr l := by
  unfold stripStr
  by_cases hB : (l.dropWhile wsChar).reverse.dropWhile wsChar = []
  · simp [hB]
  · have hstep : ((l.dropWhile wsChar).reverse.dropWhile wsChar).reverse.dropWhile wsChar
        = ((l.dropWhile wsChar).reverse.dropWhile wsChar).reverse := by
      apply dropWhile_eq_self_of_head
      intro x hx
      rw [List.head?_reverse] at hx
      rw [dropWhile_getLast? _ _ hB, List.getLast?_reverse] at hx
      exact head_dropWhile_not wsChar l hx
    rw [hstep, List.reverse_reverse, List.dropWhile_idempotent]

theorem numCoerce_idem (c : Cell) : numCoerce (numCoerce c) = numCoerce c := by
  simp [numCoerce, parseNum]

theorem dateCoerce_idem (c : Cell) : dateCoerce (dateCoerce c) = dateCoerce c := by
  cases c with
  | str s =>
    simp only [dateCoerce]
    cases parseDateStr s <;> simp [dateCoerce]
  | num q => rfl
  | date d => rfl
  | nan => rfl
  | nat => rfl

theorem coerceSalesCell_idem (n : Str) (c : Cell) :
    coerceSalesCell n (coerceSalesCell n c) = coerceSalesCell n c := by
  unfold coerceSalesCell
  by_cases h1 : n = colSaleDate
  · simp [h1, dateCoerce_idem]
  · by_cases h2 : n = colTotalAmount ∨ n = colQuantity
    · simp [h1, h2, numCoerce_idem]
    · simp [h1, h2]

theorem coerceCustCell_idem (n : Str) (c : Cell) :
    coerceCustCell n (coerceCustCell n c) = coerceCustCell n c := by
  unfold coerceCustCell
  by_cases h1 : n = colJoinDate
  · simp [h1, dateCoerce_idem]
  · simp [h1]

theorem coerceInvCell_idem (n : Str) (c : Cell) :
    coerceInvCell n (coerceInvCell n c) = coerceInvCell n c := by
  unfold coerceInvCell
  by_cases h1 : n = colPricePerUnit ∨ n = colQtyInStock
  · simp [h1, numCoerce_idem]
  · simp [h1]

theorem coerceRow_idem (f : Str → Cell → Cell)
    (hf : ∀ n c, f n (f n c) = f n c) (cols : List Str) :
    ∀ r : List Cell, coerceRow f cols (coerceRow f cols r) = coerceRow f cols r := by
  induction cols with
  | nil => intro r; rfl
  | cons n cols ih =>
    intro r
    cases r with
    | nil => rfl
    | cons c r =>
      show f n (f n c) :: coerceRow f cols (coerceRow f cols r) = _
      rw [hf, ih]
      rfl

theorem normTable_idem (f : Str → Cell → Cell)
    (hf : ∀ n c, f n (f n c) = f n c) (t : Table) :
    normTable f (normTable f t) = normTable f t := by
  have hc : (t.cols.map stripStr).map stripStr = t.cols.map stripStr := by
    rw [List.map_map]
    apply List.map_congr_left
    intro a _
    exact stripStr_idem a
  unfold normTable
  simp only [hc]
  congr 1
  rw [List.map_map]
  apply List.map_congr_left
  intro r _
  exact coerceRow_idem f hf _ r

/-- C9: the normalization pass (column-name stripping plus the date and
numeric coercions) is idempotent on every table triple: re-applying it to the
already-normalized customers, inventory and sales tables is a no-op. -/
theorem normalization_idempotent (customers inventory sales : Table) :
    normalizeCustomers (normalizeCustomers customers) = normalizeCustomers customers ∧
    normalizeInventory (normalizeInventory inventory) = normalizeInventory inventory ∧
    normalizeSales (normalizeSales sales) = normalizeSales sales :=
  ⟨normTable_idem _ coerceCustCell_idem customers,
   normTable_idem _ coerceInvCell_idem inventory,
   normTable_idem _ coerceSalesCell_idem sales⟩

theorem topTen_sorted {δ : Type} (l : List (ℤ × ℚ × Option δ)) :
    (topTen l).Pairwise revDesc :=
  List.Pairwise.sublist (List.take_sublist _ _) (List.sorted_insertionSort revDesc l)

theorem topTen_split {δ : Type} (l : List (ℤ × ℚ × Option δ)) :
    ∃ rest, List.insertionSort revDesc l = topTen l ++ rest ∧
      ∀ b ∈ rest, ∀ a ∈ topTen l, b.2.1 ≤ a.2.1 := by
  refine ⟨(List.insertionSort revDesc l).drop 10, (List.take_append_drop 10 _).symm, ?_⟩
  have hs : List.Pairwise revDesc (topTen l ++ (List.insertionSort revDesc l).drop 10) := by
    rw [topTen, List.take_append_drop 10 (List.insertionSort revDesc l)]
    exact List.sorted_insertionSort revDesc l
  rw [List.pairwise_append] at hs
  intro b hb a ha
  exact hs.2.2 a ha b hb

theorem topTen_length {δ : Type} (l : List (ℤ × ℚ × Option δ)) :
    (topTen l).length = min 10 l.length := by
  unfold topTen
  rw [List.length_take, (List.perm_insertionSort revDesc l).length_eq]

theorem topTen_mem {δ : Type} {l : List (ℤ × ℚ × Option δ)} {x}
    (hx : x ∈ topTen l) : x ∈ l :=
  (List.perm_insertionSort revDesc l).mem_iff.mp
    (List.Sublist.mem hx (List.take_sublist _ _))

theorem groupbySum_mem {α κ : Type} [LinearOrder κ] [DecidableEq κ] {key : α → κ} {amt : α → ℚ}
    {l : List α} {k : κ} {v : ℚ} (h : (k, v) ∈ groupbySum key amt l) :
    v = ((l.filter fun s => key s = k).map amt).sum ∧ ∃ s ∈ l, key s = k := by
  unfold groupbySum at h
  rw [List.mem_map] at h
  obtain ⟨k', hk', heq⟩ := h
  have h1 : k' = k := congrArg Prod.fst heq
  have h2 : ((l.filter fun s => key s = k').map amt).sum = v := congrArg Prod.snd heq
  subst h1
  refine ⟨h2.symm, ?_⟩
  have hm : k' ∈ (l.map key).dedup :=
    (List.perm_insertionSort _ _).mem_iff.mp hk'
  rw [List.mem_dedup, List.mem_map] at hm
  obtain ⟨s, hs, hks⟩ := hm
  exact ⟨s, hs, hks⟩

theorem groupbySum_complete {α κ : Type} [LinearOrder κ] [DecidableEq κ] {key : α → κ} {amt : α → ℚ}
    {l : List α} {s : α} (hs : s ∈ l) :
    (key s, ((l.filter fun x => key x = key s).map amt).sum) ∈ groupbySum key amt l := by
  unfold groupbySum
  rw [List.mem_map]
  refine ⟨key s, ?_, rfl⟩
  rw [(List.perm_insertionSort _ _).mem_iff, List.mem_dedup]
  exact List.mem_map_of_mem key hs

theorem groupbySum_keys_sorted {α κ : Type} [LinearOrder κ] [DecidableEq κ] (key : α → κ)
    (amt : α → ℚ) (l : List α) :
    ((groupbySum key amt l).map Prod.fst).Sorted (· < ·) := by
  have hmap : (groupbySum key amt l).map Prod.fst
      = List.insertionSort (· ≤ ·) (l.map key).dedup := by
    unfold groupbySum
    rw [List.map_map]
    exact List.map_id _ ▸ rfl
  rw [hmap]
  exact List.Sorted.lt_of_le (List.sorted_insertionSort _ _)
    ((List.perm_insertionSort _ _).nodup_iff.mpr (List.nodup_dedup _))

theorem leftMerge_none {δ : Type} {dimKey : δ → ℤ} {g : List (ℤ × ℚ)} {dim : List δ}
    {k : ℤ} {v : ℚ} (hkv : (k, v) ∈ g) (hno : ∀ d0 ∈ dim, dimKey d0 ≠ k) :
    (k, v, (none : Option δ)) ∈ leftMerge dimKey g dim := by
  unfold leftMerge
  rw [List.mem_flatMap]
  refine ⟨(k, v), hkv, ?_⟩
  have hnil : dim.filter (fun d0 => dimKey d0 = k) = [] :=
    List.filter_eq_nil_iff.mpr (by intro d0 hd0; simpa using hno d0 hd0)
  simp [hnil]

theorem leftMerge_keeps {δ : Type} {dimKey : δ → ℤ} {g : List (ℤ × ℚ)} {dim : List δ}
    {k : ℤ} {v : ℚ} (hkv : (k, v) ∈ g) :
    ∃ o, (k, v, o) ∈ leftMerge dimKey g dim := by
  by_cases hnil : dim.filter (fun d0 => dimKey d0 = k) = []
  · refine ⟨none, ?_⟩
    unfold leftMerge
    rw [List.mem_flatMap]
    exact ⟨(k, v), hkv, by simp [hnil]⟩
  · obtain ⟨d0, hd0⟩ := List.exists_mem_of_ne_nil _ hnil
    refine ⟨some d0, ?_⟩
    unfold leftMerge
    rw [List.mem_flatMap]
    refine ⟨(k, v), hkv, ?_⟩
    have hne : ((dim.filter fun x => dimKey x = k).isEmpty) = false := by
      simp [List.isEmpty_iff, hnil]
    simp only [hne, Bool.false_eq_true, if_false]
    exact List.mem_map_of_mem _ hd0

theorem topNContract_holds {δ : Type} (key : SaleRow → ℤ) (dimKey : δ → ℤ)
    (sales : List SaleRow) (dim : List δ) :
    TopNContract key dimKey sales dim
      (topTen (leftMerge dimKey (groupbySum key (fun s => s.total_amount) sales) dim)) := by
  refine ⟨?_, ?_, ?_, ?_, ?_, ?_, ?_⟩
  · intro k
    constructor
    · rintro ⟨v, hv⟩
      exact (groupbySum_mem hv).2
    · rintro ⟨s, hs, hks⟩
      subst hks
      exact ⟨_, groupbySum_complete hs⟩
  · intro k v hv
    exact (groupbySum_mem hv).1
  · intro k v hv hno
    exact leftMerge_none hv hno
  · exact topTen_sorted _
  · exact topTen_length _
  · intro x hx
    exact topTen_mem hx
  · exact topTen_split _

/-- C2: for every non-empty sales and customers (resp. inventory) table, the
Top-N operation groups sales by customer_id (resp. product_id), sums
total_amount per group, left-joins the dimension table on that key keeping
unmatched keys with null joined attributes rather than dropping them, sorts
descending by summed revenue, and returns the first 10 entries of that
order. -/
theorem topn_group_join_sort_take (sales : List SaleRow) (customers : List CustRow)
    (inventory : List InvRow) (hs : sales ≠ []) (hc : customers ≠ [])
    (hi : inventory ≠ []) :
    TopNContract (fun s => s.customer_id) (fun c => c.customer_id) sales customers
      (top_cust sales customers) ∧
    TopNContract (fun s => s.product_id) (fun p => p.product_id) sales inventory
      (top_prod sales inventory) :=
  ⟨topNContract_holds _ _ _ _, topNContract_holds _ _ _ _⟩

theorem topn_group_join_sort_take_witness :
    salesW ≠ [] ∧ custW ≠ [] ∧ invW ≠ [] ∧
    (TopNContract (fun s => s.customer_id) (fun c => c.customer_id) salesW custW
      (top_cust salesW custW) ∧
     TopNContract (fun s => s.product_id) (fun p => p.product_id) salesW invW
      (top_prod salesW invW)) :=
  ⟨by simp [salesW], by simp [custW], by simp [invW],
   topn_group_join_sort_take salesW custW invW (by simp [salesW]) (by simp [custW])
     (by simp [invW])⟩

/-- C8: the low-stock filter returns exactly the inventory rows whose
quantity_in_stock is strictly below the threshold 100 (as a permutation of
that filter, with membership matching it), sorted ascending by
quantity_in_stock; on an empty inventory it is defined and yields the empty
list; on stock quantities [50, 150, 99, 100] it keeps the rows with
quantities [50, 99] in ascending order. -/
theorem low_stock_spec :
    (∀ inv : List InvRow,
      (low_stock inv).Perm (inv.filter fun r => r.quantity_in_stock < 100) ∧
      (∀ r : InvRow, r ∈ low_stock inv ↔ r ∈ inv ∧ r.quantity_in_stock < 100) ∧
      (low_stock inv).Pairwise fun a b => a.quantity_in_stock ≤ b.quantity_in_stock) ∧
    low_stock [] = [] ∧
    (low_stock invExample).map (fun r => r.quantity_in_stock) = [50, 99] := by
  refine ⟨fun inv => ⟨?_, ?_, ?_⟩, rfl, ?_⟩
  · exact List.perm_insertionSort _ _
  · intro r
    rw [low_stock, lowStockWith, (List.perm_insertionSort qtyAsc _).mem_iff,
      List.mem_filter]
    simp
  · exact List.sorted_insertionSort qtyAsc _
  · decide

/-- C10 (amended): an inventory cell that fails numeric parsing is coerced to
the number 0 by normalization, so its row is included in the low-stock result
for every positive threshold and every row placed before it in the ascending
output has non-positive quantity_in_stock; rows whose parsed stock is negative
may strictly precede it, so it is not in general at or tied for the front. -/
theorem coerced_zero_low_stock (pid : ℤ) (nm : Str) (ppu : ℚ) (c : Cell)
    (pre post : List InvRow) (t : ℚ) (hc : parseNum c = none) (ht : 0 < t) :
    numCoerce c = Cell.num 0 ∧
    InvRow.mk pid nm ppu ((parseNum c).getD 0) ∈
      lowStockWith t (pre ++ InvRow.mk pid nm ppu ((parseNum c).getD 0) :: post) ∧
    ∃ l1 l2,
      lowStockWith t (pre ++ InvRow.mk pid nm ppu ((parseNum c).getD 0) :: post)
        = l1 ++ InvRow.mk pid nm ppu ((parseNum c).getD 0) :: l2 ∧
      ∀ x ∈ l1, x.quantity_in_stock ≤ 0 := by
  have hq : (parseNum c).getD 0 = 0 := by rw [hc]; rfl
  have hmem : InvRow.mk pid nm ppu ((parseNum c).getD 0) ∈
      lowStockWith t (pre ++ InvRow.mk pid nm ppu ((parseNum c).getD 0) :: post) := by
    rw [lowStockWith, (List.perm_insertionSort qtyAsc _).mem_iff, List.mem_filter]
    constructor
    · exact List.mem_append_right pre (List.mem_cons_self _ _)
    · simpa [hq] using ht
  refine ⟨by simp [numCoerce, hc], hmem, ?_⟩
  obtain ⟨l1, l2, hsplit⟩ := List.append_of_mem hmem
  refine ⟨l1, l2, hsplit, ?_⟩
  have hsorted : List.Pairwise qtyAsc
      (lowStockWith t (pre ++ InvRow.mk pid nm ppu ((parseNum c).getD 0) :: post)) :=
    List.sorted_insertionSort qtyAsc _
  rw [hsplit, List.pairwise_append] at hsorted
  intro x hx
  have := hsorted.2.2 x hx _ (List.mem_cons_self _ _)
  rw [qtyAsc] at this
  simpa [hq] using this

theorem coerced_zero_low_stock_witness :
    parseNum (Cell.str ("abc".data)) = none ∧ (0 : ℚ) < 100 ∧
    rowCoercedStock ∈ lowStockWith 100 [rowNegStock, rowCoercedStock] :=
  ⟨rfl, by norm_num,
   (coerced_zero_low_stock 2 ("gadget".data) 1 (Cell.str ("abc".data))
     [rowNegStock] [] 100 rfl (by norm_num)).2.1⟩

/-- C10 counterexample: with a negative parsed stock count present in the same
inventory, the coerced-to-zero row is neither at nor tied for the front of the
ascending low-stock output: the output head is the negative row, whose key is
strictly smaller. -/
theorem coerced_zero_not_front :
    parseNum (Cell.str ("abc".data)) = none ∧
    rowCoercedStock.quantity_in_stock = 0 ∧
    low_stock [rowNegStock, rowCoercedStock] = [rowNegStock, rowCoercedStock] ∧
    rowNegStock.quantity_in_stock < rowCoercedStock.quantity_in_stock := by
  refine ⟨rfl, rfl, by decide, by decide⟩

theorem filter_map_eq_filterMap {α β : Type} (p : α → Bool) (f : α → β) (l : List α) :
    (l.filter p).map f = l.filterMap fun a => if p a then some (f a) else none := by
  induction l with
  | nil => rfl
  | cons a l ih =>
    by_cases hp : p a
    · simp [List.filter_cons, hp, List.filterMap_cons, ih]
    · simp [List.filter_cons, hp, List.filterMap_cons, ih]

/-- C6: the orphaned-sales check yields the (sale_id, customer_id) pairs, in
original sales order, of exactly the sales rows whose customer_id appears
nowhere in the customers table; when either table is empty it yields the
insufficient-data marker (none) instead of an empty result. -/
theorem orphan_check_spec (sales : List SaleRow) (customers : List CustRow) :
    (orphanCheck sales customers = none ↔ sales = [] ∨ customers = []) ∧
    ∀ l, orphanCheck sales customers = some l →
      (∀ p : ℤ × ℤ, p ∈ l ↔ ∃ s ∈ sales,
        p = (s.sale_id, s.customer_id) ∧ ∀ c ∈ customers, c.customer_id ≠ s.customer_id) ∧
      l = sales.filterMap fun s =>
        if ∀ c ∈ customers, c.customer_id ≠ s.customer_id
        then some (s.sale_id, s.customer_id) else none := by
  have hcond : (sales.isEmpty ∨ customers.isEmpty) ↔ (sales = [] ∨ customers = []) := by
    simp [List.isEmpty_iff]
  constructor
  · rw [orphanCheck]
    by_cases h : sales.isEmpty ∨ customers.isEmpty
    · rw [if_pos h]
      simpa using hcond.mp h
    · rw [if_neg h]
      simpa using fun hor => h (hcond.mpr hor)
  · intro l hl
    rw [orphanCheck] at hl
    by_cases h : sales.isEmpty ∨ customers.isEmpty
    · rw [if_pos h] at hl
      cases hl
    · rw [if_neg h] at hl
      have hl' : ((sales.filter fun s =>
          ¬ (customers.any fun c => c.customer_id == s.customer_id)).map
            fun s => (s.sale_id, s.customer_id)) = l := by
        injection hl
      constructor
      · intro p
        rw [← hl']
        constructor
        · intro hp
          rw [List.mem_map] at hp
          obtain ⟨s, hs, hps⟩ := hp
          rw [List.mem_filter] at hs
          refine ⟨s, hs.1, hps.symm, ?_⟩
          intro c hc
          have hb := hs.2
          simp only [List.any_eq_true, beq_iff_eq, decide_eq_true_eq, not_exists] at hb
          exact fun hEq => hb c ⟨hc, hEq⟩
        · rintro ⟨s, hs, hp, hno⟩
          rw [List.mem_map]
          refine ⟨s, ?_, hp.symm⟩
          rw [List.mem_filter]
          refine ⟨hs, ?_⟩
          simp only [List.any_eq_true, beq_iff_eq, decide_eq_true_eq, not_exists]
          simpa using fun c hc => hno c hc
      · rw [← hl', filter_map_eq_filterMap]
        apply List.filterMap_congr
        intro s _
        by_cases hcase : ∀ c ∈ customers, c.customer_id ≠ s.customer_id
        · rw [if_pos hcase, if_pos]
          simp only [List.any_eq_true, beq_iff_eq, decide_eq_true_eq, not_exists]
          simpa using fun c hc => hcase c hc
        · rw [if_neg hcase, if_neg]
          simp only [List.any_eq_true, beq_iff_eq, decide_eq_true_eq, not_exists]
          intro hb
          exact hcase (by simpa using hb)

theorem orphan_check_spec_witness :
    orphanCheck salesO custO = some [(9, 3)] ∧
    ([((9 : ℤ), (3 : ℤ))] : List (ℤ × ℤ)) = salesO.filterMap fun s =>
      if ∀ c ∈ custO, c.customer_id ≠ s.customer_id
      then some (s.sale_id, s.customer_id) else none :=
  ⟨by decide, ((orphan_check_spec salesO custO).2 [(9, 3)] (by decide)).2⟩

theorem filterMap_filter_isSome {α β : Type} (f : α → Option β) (p : α → Bool)
    (hp : ∀ a, (f a).isSome = p a) (l : List α) :
    (l.filter p).filterMap f = l.filterMap f := by
  induction l with
  | nil => rfl
  | cons a l ih =>
    cases hfa : f a with
    | some b =>
      have hpa : p a = true := by rw [← hp a, hfa]; rfl
      simp [List.filter_cons, hpa, List.filterMap_cons, hfa, ih]
    | none =>
      have hpa : p a = false := by rw [← hp a, hfa]; rfl
      simp [List.filter_cons, hpa, List.filterMap_cons, hfa, ih]

theorem monthly_pairs_filter (sales : List SaleRow) (k : Date) :
    (((sales.filterMap fun s => s.sale_date.map fun d => (truncMonth d, s.total_amount)).filter
        fun p => p.1 = k).map Prod.snd)
      = ((sales.filter fun s => s.sale_date.map truncMonth = some k).map
          fun s => s.total_amount) := by
  induction sales with
  | nil => rfl
  | cons s l ih =>
    rw [List.filterMap_cons, List.filter_cons]
    cases hd : s.sale_date with
    | none =>
      simp only [Option.map_none']
      rw [if_neg (by simp)]
      exact ih
    | some d =>
      simp only [Option.map_some']
      rw [List.filter_cons]
      by_cases hk : truncMonth d = k
      · rw [if_pos (by simp [hk]), if_pos (by simp [hk])]
        simp only [List.map_cons]
        rw [ih]
      · rw [if_neg (by simp [hk]), if_neg (by simp [hk])]
        exact ih

theorem window_sum (l : List ℚ) : ∀ (b a : ℕ), a ≤ b → b < l.length →
    ((l.take (b + 1)).drop a).sum = ∑ j ∈ Finset.Icc a b, l.getD j 0 := by
  intro b
  induction b with
  | zero =>
    intro a ha _hb
    have ha0 : a = 0 := Nat.le_zero.mp ha
    subst ha0
    cases l with
    | nil => simp at _hb
    | cons x l => simp [List.getD]
  | succ b ih =>
    intro a ha hb
    have hb' : b < l.length := Nat.lt_of_succ_lt hb
    have hx : l[b + 1]? = some (l.getD (b + 1) 0) := by
      rw [List.getD_eq_getElem?_getD, List.getElem?_eq_getElem hb]
      rfl
    rw [List.take_succ, hx]
    have htl : a ≤ (l.take (b + 1)).length := by
      rw [List.length_take]
      omega
    rw [List.drop_append_of_le_length htl, List.sum_append]
    by_cases hab : a ≤ b
    · rw [ih a hab hb', Finset.sum_Icc_succ_top ha]
      simp
    · have ha1 : a = b + 1 := by omega
      subst ha1
      have hnil : (l.take (b + 1 + 1 - 1)).drop (b + 1) = [] := by
        apply List.drop_eq_nil_of_le
        rw [List.length_take]
        omega
      simp only [Nat.add_sub_cancel] at hnil
      rw [hnil]
      simp

theorem monthly_drops_missing (sales : List SaleRow) :
    monthly sales = monthly (sales.filter fun s => s.sale_date.isSome) := by
  unfold monthly
  congr 1
  exact (filterMap_filter_isSome _ _ (fun a => Option.isSome_map') sales).symm

/-- C1: the monthly trend uses only the sales rows with a present sale_date,
truncates each date to the first instant of its month as bucket key, sums
total_amount per bucket into a sequence with strictly ascending months, and
the trailing 3-point moving average at index i averages buckets
max(0, i-2)..i inclusive; on bucket revenues [100, 200, 300, 400] the moving
averages are [100, 150, 200, 300]. -/
theorem monthly_trend_spec :
    (∀ sales : List SaleRow,
      monthly sales = monthly (sales.filter fun s => s.sale_date.isSome) ∧
      ((monthly sales).map Prod.fst).Sorted (· < ·) ∧
      (∀ k v, (k, v) ∈ monthly sales →
        (∃ s ∈ sales, s.sale_date.map truncMonth = some k) ∧
        v = ((sales.filter fun s => s.sale_date.map truncMonth = some k).map
              fun s => s.total_amount).sum) ∧
      (∀ s ∈ sales, ∀ d, s.sale_date = some d →
        ∃ v, (truncMonth d, v) ∈ monthly sales)) ∧
    (∀ l : List ℚ,
      (ma3 l).length = l.length ∧
      ∀ i : ℕ, i < l.length →
        (ma3 l)[i]? = some ((∑ j ∈ Finset.Icc (i - 2) i, l.getD j 0) /
          ((i - (i - 2) + 1 : ℕ) : ℚ))) ∧
    ma3 [100, 200, 300, 400] = [100, 150, 200, 300] := by
  refine ⟨fun sales => ⟨monthly_drops_missing sales, ?_, ?_, ?_⟩, fun l => ⟨?_, ?_⟩, ?_⟩
  · exact groupbySum_keys_sorted Prod.fst Prod.snd _
  · intro k v hkv
    have hmem := groupbySum_mem hkv
    constructor
    · obtain ⟨p, hp, hpk⟩ := hmem.2
      rw [List.mem_filterMap] at hp
      obtain ⟨s, hs, hfs⟩ := hp
      cases hd : s.sale_date with
      | none => rw [hd] at hfs; cases hfs
      | some d =>
        rw [hd, Option.map_some'] at hfs
        refine ⟨s, hs, ?_⟩
        rw [hd, Option.map_some']
        have hp2 : (truncMonth d, s.total_amount) = p := Option.some.inj hfs
        rw [← hpk, ← hp2]
    · rw [hmem.1, monthly_pairs_filter]
  · intro s hs d hd
    have hp : (truncMonth d, s.total_amount) ∈
        (sales.filterMap fun s => s.sale_date.map fun d => (truncMonth d, s.total_amount)) := by
      rw [List.mem_filterMap]
      exact ⟨s, hs, by rw [hd, Option.map_some']⟩
    exact ⟨_, groupbySum_complete hp⟩
  · simp [ma3]
  · intro i hi
    rw [ma3, List.getElem?_map, List.getElem?_range hi, Option.map_some']
    have hwin := window_sum l i (i - 2) (Nat.sub_le i 2) hi
    have hlen : ((l.take (i + 1)).drop (i - 2)).length = i - (i - 2) + 1 := by
      rw [List.length_drop, List.length_take]
      omega
    rw [hwin, hlen]
  · norm_num [ma3, List.range_succ]

theorem monthly_trend_spec_witness :
    ((⟨1, 7, 4, some ⟨2024, 1, 5⟩, 30, 1⟩ : SaleRow) ∈ salesW) ∧
    ((⟨1, 7, 4, some ⟨2024, 1, 5⟩, 30, 1⟩ : SaleRow).sale_date = some ⟨2024, 1, 5⟩) ∧
    (∃ v, (truncMonth ⟨2024, 1, 5⟩, v) ∈ monthly salesW) ∧
    (0 : ℕ) < ([100, 200, 300, 400] : List ℚ).length ∧
    (ma3 [100, 200, 300, 400])[0]? =
      some ((∑ j ∈ Finset.Icc (0 - 2) 0, ([100, 200, 300, 400] : List ℚ).getD j 0) /
        ((0 - (0 - 2) + 1 : ℕ) : ℚ)) :=
  ⟨by simp [salesW], rfl,
   (monthly_trend_spec.1 salesW).2.2.2 ⟨1, 7, 4, some ⟨2024, 1, 5⟩, 30, 1⟩
     (by simp [salesW]) ⟨2024, 1, 5⟩ rfl,
   by norm_num,
   (monthly_trend_spec.2.1 [100, 200, 300, 400]).2 0 (by norm_num)⟩

theorem getElem?_zip_pair {α β : Type} :
    ∀ (a : List α) (b : List β) (j : ℕ),
      (a.zip b)[j]? = a[j]?.bind fun x => b[j]?.map fun y => (x, y) := by
  intro a
  induction a with
  | nil => intro b j; simp
  | cons x a ih =>
    intro b j
    cases b with
    | nil => simp
    | cons y b =>
      cases j with
      | zero => simp [List.zip_cons_cons]
      | succ j => simpa [List.zip_cons_cons] using ih b j

theorem normTable_rows_length (f : Str → Cell → Cell) (t : Table) :
    (normTable f t).rows.length = t.rows.length := by
  simp [normTable]

theorem normTable_cell (f : Str → Cell → Cell) (t : Table) {i j : ℕ} {nm : Str}
    {c : Cell} (hcol : t.cols[j]? = some nm)
    (hcell : t.rows[i]?.bind (fun r => r[j]?) = some c) :
    (normTable f t).rows[i]?.bind (fun r => r[j]?) = some (f (stripStr nm) c) := by
  obtain ⟨r, hr, hcl⟩ : ∃ r, t.rows[i]? = some r ∧ r[j]? = some c := by
    cases hrow : t.rows[i]? with
    | none => rw [hrow] at hcell; cases hcell
    | some r => rw [hrow] at hcell; exact ⟨r, rfl, hcell⟩
  have hnorm : (normTable f t).rows[i]?
      = some (coerceRow f (t.cols.map stripStr) r) := by
    show (t.rows.map (coerceRow f (t.cols.map stripStr)))[i]? = _
    rw [List.getElem?_map, hr, Option.map_some']
  rw [hnorm, Option.some_bind]
  show (coerceRow f (t.cols.map stripStr) r)[j]? = _
  rw [coerceRow, List.getElem?_map, getElem?_zip_pair, List.getElem?_map, hcol,
    Option.map_some', Option.some_bind, hcl, Option.map_some', Option.map_some']

/-- C3: normalization drops no row, and every cell of the four numeric
columns (total_amount and quantity of sales, price_per_unit and
quantity_in_stock of inventory) comes out as the parsed number — the number 0
exactly when the cell fails to parse, so no invalid marker remains; on the
total_amount inputs "10", "abc", "-5" normalization yields 10, 0, -5 and the
total-revenue KPI is 5. -/
theorem numeric_coercion_to_zero :
    (∀ t : Table, (normalizeSales t).rows.length = t.rows.length ∧
      (normalizeInventory t).rows.length = t.rows.length) ∧
    (∀ (t : Table) (i j : ℕ) (nm : Str) (c : Cell),
      t.cols[j]? = some nm →
      (stripStr nm = colTotalAmount ∨ stripStr nm = colQuantity) →
      t.rows[i]?.bind (fun r => r[j]?) = some c →
      (normalizeSales t).rows[i]?.bind (fun r => r[j]?)
        = some (Cell.num ((parseNum c).getD 0))) ∧
    (∀ (t : Table) (i j : ℕ) (nm : Str) (c : Cell),
      t.cols[j]? = some nm →
      (stripStr nm = colPricePerUnit ∨ stripStr nm = colQtyInStock) →
      t.rows[i]?.bind (fun r => r[j]?) = some c →
      (normalizeInventory t).rows[i]?.bind (fun r => r[j]?)
        = some (Cell.num ((parseNum c).getD 0))) ∧
    (normalizeSales amountsTable).rows.map (fun r => r.getD 1 Cell.nan)
      = [Cell.num 10, Cell.num 0, Cell.num (-5)] ∧
    totalSalesT (normalizeSales amountsTable) = .ok 5 := by
  refine ⟨fun t => ⟨normTable_rows_length _ t, normTable_rows_length _ t⟩,
    ?_, ?_, by decide, ?_⟩
  · intro t i j nm c hcol hnm hcell
    have h := normTable_cell coerceSalesCell t hcol hcell
    unfold normalizeSales
    rw [h]
    have hnot : stripStr nm ≠ colSaleDate := by
      rcases hnm with h1 | h1 <;> rw [h1] <;> decide
    rw [coerceSalesCell, if_neg hnot, if_pos hnm]
    rfl
  · intro t i j nm c hcol hnm hcell
    have h := normTable_cell coerceInvCell t hcol hcell
    unfold normalizeInventory
    rw [h]
    rw [coerceInvCell, if_pos hnm]
    rfl
  · have htab : normalizeSales amountsTable
        = ⟨[colSaleId, colTotalAmount],
           [[Cell.num 1, Cell.num 10], [Cell.num 2, Cell.num 0],
            [Cell.num 3, Cell.num (-5)]]⟩ := by decide
    rw [htab]
    have hval : totalSalesT (Table.mk [colSaleId, colTotalAmount]
        [[Cell.num 1, Cell.num 10], [Cell.num 2, Cell.num 0],
         [Cell.num 3, Cell.num (-5)]])
        = Except.ok ((10 : ℚ) + (0 + (-5 + 0))) := rfl
    rw [hval]
    have : (10 : ℚ) + (0 + (-5 + 0)) = 5 := by norm_num
    rw [this]

theorem numeric_coercion_to_zero_witness :
    (amountsTable.cols[1]? = some colTotalAmount) ∧
    (stripStr colTotalAmount = colTotalAmount ∨ stripStr colTotalAmount = colQuantity) ∧
    (amountsTable.rows[1]?.bind (fun r => r[1]?) = some (Cell.str ("abc".data))) ∧
    (normalizeSales amountsTable).rows[1]?.bind (fun r => r[1]?)
      = some (Cell.num ((parseNum (Cell.str ("abc".data))).getD 0)) :=
  ⟨rfl, Or.inl (by decide), rfl,
   numeric_coercion_to_zero.2.1 amountsTable 1 1 colTotalAmount
     (Cell.str ("abc".data)) rfl (Or.inl (by decide)) rfl⟩

theorem negFilter_map (rows : List (ℚ × ℚ)) :
    ((rows.map fun p => ([Cell.num p.1, Cell.num p.2] : List Cell)).filter
        (fun r => decide (cellQ (r.getD 1 Cell.nan) < 0))).map
        (fun r => (r.getD 0 Cell.nan, r.getD 1 Cell.nan))
      = (rows.filter fun p => p.2 < 0).map fun p => (Cell.num p.1, Cell.num p.2) := by
  induction rows with
  | nil => rfl
  | cons p rows ih =>
    simp only [List.map_cons, List.filter_cons]
    by_cases hp : p.2 < 0
    · rw [if_pos (by simp [cellQ, hp]), if_pos (by simp [hp])]
      simp only [List.map_cons, ih]
      rfl
    · rw [if_neg (by simp [cellQ, hp]), if_neg (by simp [hp])]
      exact ih

/-- C4 (amended): the negative-amounts check returns exactly the
(sale_id, total_amount) pairs of the sales rows with negative total_amount,
in original sales order, and on an empty sales table that retains its sale_id
and total_amount columns it yields the empty result; on the zero-column
placeholder produced for an absent sales source, however, the unguarded
column access raises a KeyError instead of returning an empty result. -/
theorem neg_check_spec :
    (∀ rows : List (ℚ × ℚ),
      negCheckT (mkSalesTable rows)
        = .ok ((rows.filter fun p => p.2 < 0).map fun p => (Cell.num p.1, Cell.num p.2))) ∧
    negCheckT (mkSalesTable []) = .ok [] ∧
    negCheckT (mkSalesTable [(1, -5), (2, 10)]) = .ok [(Cell.num 1, Cell.num (-5))] ∧
    negCheckT emptyTable = .error errTotalAmount := by
  have hgen : ∀ rows : List (ℚ × ℚ),
      negCheckT (mkSalesTable rows)
        = .ok ((rows.filter fun p => p.2 < 0).map fun p => (Cell.num p.1, Cell.num p.2)) := by
    intro rows
    have hshape : negCheckT (mkSalesTable rows)
        = .ok (((rows.map fun p => ([Cell.num p.1, Cell.num p.2] : List Cell)).filter
            (fun r => decide (cellQ (r.getD 1 Cell.nan) < 0))).map
            fun r => (r.getD 0 Cell.nan, r.getD 1 Cell.nan)) := rfl
    rw [hshape]
    congr 1
    exact negFilter_map rows
  refine ⟨hgen, ?_, ?_, rfl⟩
  · rw [hgen []]
    rfl
  · rw [hgen [(1, -5), (2, 10)]]
    exact congrArg Except.ok (by decide)

/-- C4 counterexample: load_data models an absent sales source as the
zero-column empty DataFrame; on that empty sales table the unguarded
negative-amounts check raises a KeyError rather than yielding the empty
result the claim asserts. -/
theorem neg_check_placeholder_error :
    emptyTable.rows = [] ∧ negCheckT emptyTable = .error errTotalAmount ∧
    ∀ l, negCheckT emptyTable ≠ .ok l :=
  ⟨rfl, rfl, fun _ h => Except.noConfusion h⟩

/-- C7 (amended): type coercion is applied only where the named column is
present — normalization leaves every cell of a column not named in the §4.2
coercion table unchanged and never errors — but column absence does not only
degrade the dependent feature: the monthly trend on a non-empty sales table
lacking a sale_date column raises a KeyError. -/
theorem coercion_skip_and_trend_error :
    (∀ (t : Table) (i j : ℕ) (nm : Str) (c : Cell),
      t.cols[j]? = some nm →
      stripStr nm ≠ colSaleDate → stripStr nm ≠ colTotalAmount →
      stripStr nm ≠ colQuantity →
      t.rows[i]?.bind (fun r => r[j]?) = some c →
      (normalizeSales t).rows[i]?.bind (fun r => r[j]?) = some c) ∧
    (∀ t : Table, t.rows ≠ [] → colSaleDate ∉ t.cols →
      monthlyT t = .error errSaleDate) := by
  constructor
  · intro t i j nm c hcol h1 h2 h3 hcell
    have h := normTable_cell coerceSalesCell t hcol hcell
    unfold normalizeSales
    rw [h, coerceSalesCell, if_neg h1, if_neg (by simp [h2, h3])]
  · intro t hne hno
    have hidx : t.colIdx colSaleDate = none := by
      rw [Table.colIdx, List.indexOf?_eq_none_iff]
      intro x hx
      simp only [beq_iff_eq]
      intro hEq
      exact hno (hEq ▸ hx)
    unfold monthlyT
    rw [if_neg (by simpa [List.isEmpty_iff] using hne)]
    rw [hidx]

/-- C7 counterexample: a normalized, non-empty sales table lacking the
sale_date column, on which the monthly trend raises a KeyError instead of
degrading. -/
theorem monthly_missing_column_error :
    normalizeSales salesNoDateTable = salesNoDateTable ∧
    salesNoDateTable.rows ≠ [] ∧
    monthlyT salesNoDateTable = .error errSaleDate :=
  ⟨by decide, by decide, rfl⟩

theorem coercion_skip_and_trend_error_witness :
    (amountsTable.cols[0]? = some colSaleId) ∧
    stripStr colSaleId ≠ colSaleDate ∧ stripStr colSaleId ≠ colTotalAmount ∧
    stripStr colSaleId ≠ colQuantity ∧
    (amountsTable.rows[0]?.bind (fun r => r[0]?) = some (Cell.num 1)) ∧
    ((normalizeSales amountsTable).rows[0]?.bind (fun r => r[0]?) = some (Cell.num 1)) ∧
    salesNoDateTable.rows ≠ [] ∧ colSaleDate ∉ salesNoDateTable.cols ∧
    monthlyT salesNoDateTable = .error errSaleDate :=
  ⟨rfl, by decide, by decide, by decide, rfl,
   coercion_skip_and_trend_error.1 amountsTable 0 0 colSaleId (Cell.num 1) rfl
     (by decide) (by decide) (by decide) rfl,
   by decide, by decide,
   coercion_skip_and_trend_error.2 salesNoDateTable (by decide) (by decide)⟩
